import Mathlib

/-!
Shallow embedding of `src/services/codebaseAnalyzer.js` (the analysis core of
the codebase-analyzer backend) and proofs about the spec's claims.

JavaScript values that can reach the analyzer are modelled by `JValue`;
strings are Lean `String`s (JS strings are UTF-16, but every claim concerns
scalar-value sequences, which `String` models directly).  The regular
expressions used by the analyzer are modelled by a small backtracking engine
(`RE`, `remainders`) whose alternation order and greedy quantifiers follow
the JS engine: all quantifiers in the source's patterns range over single
character classes, so the engine only needs greedy classes.
-/

/-- Whitespace for JS `String.prototype.trim` and the regex class `\s`
(per ECMA-262: tab, LF, VT, FF, CR, space, NBSP, BOM, the Unicode Zs
spaces and the line separators). -/
def jsWhitespace (c : Char) : Bool :=
  c == ' ' || c == '\t' || c == '\n' || c == '\r' ||
  c == '\u000B' || c == '\u000C' || c == '\u00A0' || c == '\uFEFF' ||
  c == '\u1680' || c == '\u2000' || c == '\u2001' || c == '\u2002' ||
  c == '\u2003' || c == '\u2004' || c == '\u2005' || c == '\u2006' ||
  c == '\u2007' || c == '\u2008' || c == '\u2009' || c == '\u200A' ||
  c == '\u2028' || c == '\u2029' || c == '\u202F' || c == '\u205F' ||
  c == '\u3000'

/-- Regex class `\w`: ASCII letters, digits and underscore. -/
def wordChar (c : Char) : Bool :=
  c.isAlpha || c.isDigit || c == '_'

/-- Regex class `.` (no `s` flag): any character except a line terminator. -/
def dotChar (c : Char) : Bool :=
  !(c == '\n' || c == '\r' || c == '\u2028' || c == '\u2029')

/-- JS `line.trim()` on a character list: strip `jsWhitespace` from both ends. -/
def jsTrim (l : List Char) : List Char :=
  ((l.dropWhile jsWhitespace).reverse.dropWhile jsWhitespace).reverse

/-- JS `s.split(sep)` for a one-character separator, on character lists.
Always returns at least one (possibly empty) piece, like JS `split`. -/
def splitOnChar (sep : Char) : List Char → List (List Char)
  | [] => [[]]
  | c :: cs =>
    let r := splitOnChar sep cs
    if c == sep then [] :: r
    else
      match r with
      | [] => [[c]]
      | l :: ls => (c :: l) :: ls

/-- The lines of a file's content, as produced by `content.split('\n')`. -/
def jsLines (s : String) : List (List Char) :=
  splitOnChar '\n' s.data

/-- Regular expressions as used by the analyzer.  Every quantifier in the
source's patterns applies to a single character class, so `star`/`plus`
range over classes only. -/
inductive RE where
  | epsilon : RE
  | cls (f : Char → Bool) : RE
  | seq (a b : RE) : RE
  | alt (a b : RE) : RE
  | star (f : Char → Bool) : RE
  | plus (f : Char → Bool) : RE

/-- Remainders after a greedy class-star match, longest match first —
the candidate order a backtracking JS engine explores. -/
def starRems (f : Char → Bool) : List Char → List (List Char)
  | [] => [[]]
  | c :: cs => if f c then starRems f cs ++ [c :: cs] else [c :: cs]

/-- All suffixes remaining after a match of `re` at the start of the input,
in the priority order of a backtracking engine (alternatives left to right,
quantifiers greedy).  The head of this list is the match JS would take. -/
def remainders : RE → List Char → List (List Char)
  | .epsilon, cs => [cs]
  | .cls f, [] => (fun _ => []) f
  | .cls f, c :: cs => if f c then [cs] else []
  | .seq a b, cs => (remainders a cs).flatMap (remainders b)
  | .alt a b, cs => remainders a cs ++ remainders b cs
  | .star f, cs => starRems f cs
  | .plus f, [] => (fun _ => []) f
  | .plus f, c :: cs => if f c then starRems f cs else []

/-- Scan for the first position where `re` matches, returning the suffix
after that match (the JS `RegExp.prototype.test` / first-match search). -/
def searchRem (re : RE) : List Char → Option (List Char)
  | [] => (remainders re []).head?
  | c :: cs' =>
    match (remainders re (c :: cs')).head? with
    | some rem => some rem
    | none => searchRem re cs'

/-- JS `/re/.test(s)` (and `/re/g.test(s)` on a fresh literal). -/
def reTest (re : RE) (s : String) : Bool :=
  (searchRem re s.data).isSome

/-- Counting loop of JS `s.match(/re/g).length`: repeatedly take the first
match from the current position, continue after it (advancing one character
on an empty match), until the input is exhausted.  `fuel` bounds the number
of steps; `s.length + 1` always suffices. -/
def scanCount (re : RE) : Nat → List Char → Nat
  | 0, _ => 0
  | fuel + 1, cs =>
    match (remainders re cs).head? with
    | some rem =>
      if rem.length < cs.length then 1 + scanCount re fuel rem
      else
        match cs with
        | [] => 1
        | _ :: cs' => 1 + scanCount re fuel cs'
    | none =>
      match cs with
      | [] => 0
      | _ :: cs' => scanCount re fuel cs'

/-- JS `(s.match(/re/g) || []).length`. -/
def countMatches (re : RE) (s : String) : Nat :=
  scanCount re (s.data.length + 1) s.data

/-- Literal character sequence as a regex. -/
def lit (s : String) : RE :=
  s.data.foldr (fun c r => RE.seq (RE.cls (fun d => d == c)) r) RE.epsilon

/-- Pattern `function\s+\w+|const\s+\w+\s*=\s*\(|=>\s*\{` from `analyzeFile`
(function counting and `hasFunctions`). -/
def funcRE : RE :=
  RE.alt (RE.seq (lit "function") (RE.seq (RE.plus jsWhitespace) (RE.plus wordChar)))
    (RE.alt
      (RE.seq (lit "const")
        (RE.seq (RE.plus jsWhitespace)
          (RE.seq (RE.plus wordChar)
            (RE.seq (RE.star jsWhitespace)
              (RE.seq (lit "=") (RE.seq (RE.star jsWhitespace) (lit "(")))))))
      (RE.seq (lit "=>") (RE.seq (RE.star jsWhitespace) (lit "\x7b"))))

/-- Pattern `class\s+\w+` from `analyzeFile`. -/
def classRE : RE :=
  RE.seq (lit "class") (RE.seq (RE.plus jsWhitespace) (RE.plus wordChar))

/-- Pattern `import\s+.*from|require\(` from `analyzeFile`. -/
def importRE : RE :=
  RE.alt
    (RE.seq (lit "import")
      (RE.seq (RE.plus jsWhitespace) (RE.seq (RE.star dotChar) (lit "from"))))
    (lit "require(")

/-- Pattern `export\s+|module\.exports` from `analyzeFile`. -/
def exportRE : RE :=
  RE.alt (RE.seq (lit "export") (RE.plus jsWhitespace)) (lit "module.exports")

/-- Pattern `function\s+\w+|const\s+\w+\s*=|let\s+\w+\s*=`: the JavaScript
content heuristic of `detectLanguage`. -/
def jsHeurRE : RE :=
  RE.alt (RE.seq (lit "function") (RE.seq (RE.plus jsWhitespace) (RE.plus wordChar)))
    (RE.alt
      (RE.seq (lit "const")
        (RE.seq (RE.plus jsWhitespace)
          (RE.seq (RE.plus wordChar) (RE.seq (RE.star jsWhitespace) (lit "=")))))
      (RE.seq (lit "let")
        (RE.seq (RE.plus jsWhitespace)
          (RE.seq (RE.plus wordChar) (RE.seq (RE.star jsWhitespace) (lit "="))))))

/-- Pattern `def\s+\w+\s*\(|import\s+\w+|class\s+\w+`: the Python content
heuristic of `detectLanguage`. -/
def pyHeurRE : RE :=
  RE.alt
    (RE.seq (lit "def")
      (RE.seq (RE.plus jsWhitespace)
        (RE.seq (RE.plus wordChar) (RE.seq (RE.star jsWhitespace) (lit "(")))))
    (RE.alt
      (RE.seq (lit "import") (RE.seq (RE.plus jsWhitespace) (RE.plus wordChar)))
      (RE.seq (lit "class") (RE.seq (RE.plus jsWhitespace) (RE.plus wordChar))))

example : reTest funcRE "function foo() \x7b return 1; \x7d" = true := by decide
example : reTest funcRE "nothing here" = false := by decide
example : countMatches classRE "class A class B" = 2 := by decide
example : countMatches importRE "import a from b from c" = 1 := by decide
example : reTest jsHeurRE "let x = 1" = true := by decide
example : reTest pyHeurRE "def f(x):" = true := by decide

/-- Suffix→language table of `detectLanguage`. -/
def languageMap : List (String × String) :=
  [("js", "JavaScript"), ("jsx", "JavaScript"), ("ts", "TypeScript"),
   ("tsx", "TypeScript"), ("py", "Python"), ("java", "Java"), ("cpp", "C++"),
   ("c", "C"), ("cs", "C#"), ("php", "PHP"), ("rb", "Ruby"), ("go", "Go"),
   ("rs", "Rust"), ("swift", "Swift"), ("kt", "Kotlin"), ("html", "HTML"),
   ("css", "CSS"), ("scss", "SCSS"), ("json", "JSON"), ("xml", "XML"),
   ("yaml", "YAML"), ("yml", "YAML"), ("md", "Markdown"), ("sh", "Shell"),
   ("sql", "SQL")]

/-- JS `filePath.match(/\.([^.]+)$/)` then `toLowerCase`: the non-empty
dot-free suffix after the last `.` of the path, lowercased; `none` when the
path has no dot or ends in a dot. -/
def getFileExtension (filePath : String) : Option String :=
  let parts := splitOnChar '.' filePath.data
  if parts.length ≥ 2 then
    match parts.getLast? with
    | some last =>
      if last.isEmpty then none else some (last.map Char.toLower).asString
    | none => none
  else none

/-- Content-heuristic fallback of `detectLanguage`: a JS declaration pattern,
then a Python pattern, then `"Unknown"`. -/
def contentFallback (content : String) : String :=
  if reTest jsHeurRE content then "JavaScript"
  else if reTest pyHeurRE content then "Python"
  else "Unknown"

/-- Result of the source's `detectLanguage`: normally a string, but
`languageMap[extension]` is an object-literal property read, so an extension
naming an inherited `Object.prototype` member returns that member — a
truthy, non-string object. -/
inductive LangResult where
  | str (s : String) : LangResult
  | protoMember (name : String) : LangResult
deriving Repr, DecidableEq, Inhabited

/-- Own property names of `Object.prototype`, reachable through the
prototype chain of the `languageMap` object literal; every one of their
values is truthy and not a string. -/
def objectProtoMembers : List String :=
  ["constructor", "hasOwnProperty", "isPrototypeOf", "propertyIsEnumerable",
   "toLocaleString", "toString", "valueOf", "__defineGetter__",
   "__defineSetter__", "__lookupGetter__", "__lookupSetter__", "__proto__"]

/-- Property read `languageMap[extension]`: an own key first, then the
prototype chain; `none` models `undefined` (falsy). -/
def langMapRead (ext : String) : Option LangResult :=
  match languageMap.lookup ext with
  | some lang => some (.str lang)
  | none =>
    if ext ∈ objectProtoMembers then some (.protoMember ext) else none

/-- JS truthiness of a classifier result: every inherited member is a
truthy object. -/
def truthyLang : LangResult → Bool
  | .str s => !(s == "")
  | .protoMember _ => true

/-- String a classifier result coerces to when the source uses it as a
property key (`languages[language]`).  For an inherited member the real
string is implementation-defined (e.g. `function Object() ...` under V8);
it is modelled as a distinct marker, on which no claim depends. -/
def langKey : LangResult → String
  | .str s => s
  | .protoMember name => "~Object.prototype." ++ name ++ "~"

/-- Language detection `detectLanguage(filePath, content)`: the property
read `languageMap[extension]` is returned whenever it is truthy — own table
values are non-empty strings, inherited `Object.prototype` members are
truthy objects — else the content heuristics run. -/
def detectLanguage (filePath content : String) : LangResult :=
  match (getFileExtension filePath).bind (fun ext => langMapRead ext) with
  | some v => v
  | none => .str (contentFallback content)

/-- Structural-signal block of a `FileAnalysis` (`metrics` in the source). -/
structure Metrics where
  hasFunctions : Bool
  hasClasses : Bool
  hasImports : Bool
  hasExports : Bool
  functionCount : Nat
  classCount : Nat
  importCount : Nat
deriving Repr, DecidableEq, Inhabited

/-- Per-file result of `analyzeFile`. -/
structure FileAnalysis where
  path : String
  lines : Nat
  size : Nat
  codeLines : Nat
  commentLines : Nat
  blankLines : Nat
  metrics : Metrics
  language : LangResult
deriving Repr, DecidableEq, Inhabited

/-- Line predicate for `codeLines`: non-blank after trim and not starting
with `//` or `/*`. -/
def isCodeLine (l : List Char) : Bool :=
  let trimmed := jsTrim l
  decide (0 < trimmed.length) && !(['/', '/'].isPrefixOf trimmed) &&
    !(['/', '*'].isPrefixOf trimmed)

/-- Line predicate for `commentLines`: after trim, starts with `//`, `/*`
or `*`. -/
def isCommentLine (l : List Char) : Bool :=
  let trimmed := jsTrim l
  ['/', '/'].isPrefixOf trimmed || ['/', '*'].isPrefixOf trimmed ||
    ['*'].isPrefixOf trimmed

/-- Line predicate for `blankLines`: empty after trim. -/
def isBlankLine (l : List Char) : Bool :=
  (jsTrim l).isEmpty

/-- Per-file analysis `analyzeFile(filePath, content)`: split into lines, count the line
categories, take the UTF-8 byte size (`Buffer.byteLength(content, 'utf8')`)
and the structural signals, and attach the detected language. -/
def analyzeFile (filePath content : String) : FileAnalysis :=
  let lines := jsLines content
  let size := content.utf8ByteSize
  let codeLines := (lines.filter isCodeLine).length
  let commentLines := (lines.filter isCommentLine).length
  let blankLines := (lines.filter isBlankLine).length
  let hasFunctions := reTest funcRE content
  let hasClasses := reTest classRE content
  let hasImports := reTest importRE content
  let hasExports := reTest exportRE content
  let functionCount := countMatches funcRE content
  let classCount := countMatches classRE content
  let importCount := countMatches importRE content
  { path := filePath
    lines := lines.length
    size := size
    codeLines := codeLines
    commentLines := commentLines
    blankLines := blankLines
    metrics :=
      { hasFunctions := hasFunctions
        hasClasses := hasClasses
        hasImports := hasImports
        hasExports := hasExports
        functionCount := functionCount
        classCount := classCount
        importCount := importCount }
    language := detectLanguage filePath content }

example : detectLanguage "app.js" "" = .str "JavaScript" := by decide
example : detectLanguage "x.YML" "" = .str "YAML" := by decide
example : detectLanguage "noext" "let x = 1" = .str "JavaScript" := by decide
example : detectLanguage "noext" "import os" = .str "Python" := by decide
example : detectLanguage "noext" "plain text" = .str "Unknown" := by decide
example : detectLanguage "x.constructor" "" = .protoMember "constructor" := by decide
example : detectLanguage "x.CONSTRUCTOR" "let x = 1" = .protoMember "constructor" := by
  decide
example : getFileExtension "a.b.C" = some "c" := by decide
example : getFileExtension "a." = none := by decide
example : getFileExtension "nodot" = none := by decide
example : (analyzeFile "a.js" "let x = 1;\n// c\n\n* star").lines = 4 := by decide
example : (analyzeFile "a.js" "let x = 1;\n// c\n\n* star").codeLines = 2 := by decide
example : (analyzeFile "a.js" "let x = 1;\n// c\n\n* star").commentLines = 2 := by decide
example : (analyzeFile "a.js" "let x = 1;\n// c\n\n* star").blankLines = 1 := by decide
example : (analyzeFile "a.js" "héllo").size = 6 := by decide

/-- JavaScript values that can reach `analyzeCodebase` (the payload after
JSON decoding, plus `null`/`undefined`, which arise as element values).
JSON numbers are only ever inspected for truthiness by the analyzer, so a
number is recorded by whether it is zero (`0`, `-0`, `0.0e5`, …). -/
inductive JValue where
  | null : JValue
  | undefined : JValue
  | bool (b : Bool) : JValue
  | num (isZero : Bool) : JValue
  | str (s : String) : JValue
  | arr (elems : List JValue) : JValue
  | obj (fields : List (String × JValue)) : JValue

instance : Inhabited JValue := ⟨JValue.null⟩

/-- JS truthiness of a `JValue` (`NaN` cannot arise from JSON decoding). -/
def truthy : JValue → Bool
  | .null => false
  | .undefined => false
  | .bool b => b
  | .num isZero => !isZero
  | .str s => !(s == "")
  | .arr _ => true
  | .obj _ => true

/-- JS property read `v[key]`: a `TypeError` on `null`/`undefined`,
`undefined` on a missing field or a primitive, the field's value otherwise. -/
def getProp (v : JValue) (key : String) : Except String JValue :=
  match v with
  | .null => .error ("Cannot read properties of null (reading " ++ key ++ ")")
  | .undefined =>
    .error ("Cannot read properties of undefined (reading " ++ key ++ ")")
  | .obj fields =>
    match fields.lookup key with
    | some w => .ok w
    | none => .ok .undefined
  | _ => .ok .undefined

/-- Coercion point for the string methods the analyzer calls
(`content.split`, `filePath.match`, …): a `TypeError` on any non-string. -/
def asStringVal : JValue → Except String String
  | .str s => .ok s
  | _ => .error "value has no string methods"

/-- Insert into a JS-object field list: keep the first-insertion position of
an existing key but replace its value (`JSON.parse` duplicate-key rule). -/
def objInsert : List (String × JValue) → String → JValue → List (String × JValue)
  | [], k, v => [(k, v)]
  | (k', v') :: rest, k, v =>
    if k' == k then (k', v) :: rest else (k', v') :: objInsert rest k v

/-- JSON whitespace accepted between tokens by `JSON.parse`. -/
def jsonWs (c : Char) : Bool :=
  c == ' ' || c == '\t' || c == '\n' || c == '\r'

/-- Hexadecimal digit value for `\uXXXX` escapes: position of the
lowercased digit in the hex alphabet. -/
def hexVal (c : Char) : Option Nat :=
  "0123456789abcdef".data.indexOf? c.toLower

/-- String body of a JSON string literal, after the opening quote:
returns the decoded characters and the input after the closing quote. -/
def parseJStr : List Char → Option (List Char × List Char)
  | [] => none
  | '"' :: rest => some ([], rest)
  | '\\' :: rest =>
    match rest with
    | 'u' :: h1 :: h2 :: h3 :: h4 :: rest' =>
      match hexVal h1, hexVal h2, hexVal h3, hexVal h4 with
      | some a, some b, some c, some d =>
        let n := ((a * 16 + b) * 16 + c) * 16 + d
        let ch := if h : n.isValidChar then Char.ofNatAux n h else '�'
        match parseJStr rest' with
        | some (tail, rem) => some (ch :: tail, rem)
        | none => none
      | _, _, _, _ => none
    | e :: rest' =>
      let ch? : Option Char :=
        if e == '"' then some '"'
        else if e == '\\' then some '\\'
        else if e == '/' then some '/'
        else if e == 'b' then some '\u0008'
        else if e == 'f' then some '\u000C'
        else if e == 'n' then some '\n'
        else if e == 'r' then some '\r'
        else if e == 't' then some '\t'
        else none
      match ch? with
      | some ch =>
        match parseJStr rest' with
        | some (tail, rem) => some (ch :: tail, rem)
        | none => none
      | none => none
    | [] => none
  | c :: rest =>
    if c.toNat < 32 then none
    else
      match parseJStr rest with
      | some (tail, rem) => some (c :: tail, rem)
      | none => none

/-- JSON number after an optional leading `-` has been noted: digits,
optional fraction, optional exponent.  Returns whether the value is zero
and the rest of the input. -/
def parseJNum (cs : List Char) : Option (Bool × List Char) :=
  let intPart : Option (List Char × List Char) :=
    match cs with
    | '0' :: rest => some (['0'], rest)
    | c :: rest =>
      if c.isDigit && c != '0' then
        some (c :: rest.takeWhile Char.isDigit, rest.dropWhile Char.isDigit)
      else none
    | [] => none
  match intPart with
  | none => none
  | some (intDigits, afterInt) =>
    let fracPart : Option (List Char × List Char) :=
      match afterInt with
      | '.' :: rest =>
        let ds := rest.takeWhile Char.isDigit
        if ds.isEmpty then none else some (ds, rest.dropWhile Char.isDigit)
      | _ => some ([], afterInt)
    match fracPart with
    | none => none
    | some (fracDigits, afterFrac) =>
      let expPart : Option (List Char) :=
        match afterFrac with
        | c :: rest =>
          if c == 'e' || c == 'E' then
            let rest2 :=
              match rest with
              | s :: r => if s == '+' || s == '-' then r else rest
              | [] => rest
            let ds := rest2.takeWhile Char.isDigit
            if ds.isEmpty then none else some (rest2.dropWhile Char.isDigit)
          else some (c :: rest)
        | [] => some []
      match expPart with
      | none => none
      | some afterExp =>
        some ((intDigits ++ fracDigits).all (fun d => d == '0'), afterExp)

mutual

/-- One JSON value at the start of the input (leading whitespace allowed),
with the unconsumed rest.  `fuel` bounds recursion depth. -/
def parseJVal : Nat → List Char → Option (JValue × List Char)
  | 0, _ => none
  | fuel + 1, cs =>
    match cs.dropWhile jsonWs with
    | [] => none
    | c :: rest =>
      if c == '"' then
        match parseJStr rest with
        | some (chars, rem) => some (.str chars.asString, rem)
        | none => none
      else if c == '[' then
        parseJArr fuel rest
      else if c == '\x7b' then
        parseJObj fuel rest
      else if c == 't' then
        if ['r', 'u', 'e'].isPrefixOf rest then some (.bool true, rest.drop 3)
        else none
      else if c == 'f' then
        if ['a', 'l', 's', 'e'].isPrefixOf rest then
          some (.bool false, rest.drop 4)
        else none
      else if c == 'n' then
        if ['u', 'l', 'l'].isPrefixOf rest then some (.null, rest.drop 3)
        else none
      else if c == '-' then
        match parseJNum rest with
        | some (isZero, rem) => some (.num isZero, rem)
        | none => none
      else if c.isDigit then
        match parseJNum (c :: rest) with
        | some (isZero, rem) => some (.num isZero, rem)
        | none => none
      else none

/-- Array elements after `[`, including the closing `]`. -/
def parseJArr : Nat → List Char → Option (JValue × List Char)
  | 0, _ => none
  | fuel + 1, cs =>
    match cs.dropWhile jsonWs with
    | ']' :: rest => some (.arr [], rest)
    | _ =>
      match parseJVal fuel cs with
      | none => none
      | some (v, rest) => parseJArrTail fuel [v] rest

/-- Array elements after the first one: `,` separated, ended by `]`. -/
def parseJArrTail : Nat → List JValue → List Char → Option (JValue × List Char)
  | 0, _, _ => none
  | fuel + 1, acc, cs =>
    match cs.dropWhile jsonWs with
    | ']' :: rest => some (.arr acc.reverse, rest)
    | ',' :: rest =>
      match parseJVal fuel rest with
      | none => none
      | some (v, rest') => parseJArrTail fuel (v :: acc) rest'
    | _ => none

/-- Object members after `{`, including the closing `}`. -/
def parseJObj : Nat → List Char → Option (JValue × List Char)
  | 0, _ => none
  | fuel + 1, cs =>
    match cs.dropWhile jsonWs with
    | '\x7d' :: rest => some (.obj [], rest)
    | '"' :: rest =>
      match parseJMember fuel rest with
      | none => none
      | some (k, v, rest') => parseJObjTail fuel (objInsert [] k v) rest'
    | _ => none

/-- Object members after the first one: `,` separated, ended by `}`;
a duplicate key keeps its first position but takes the last value. -/
def parseJObjTail :
    Nat → List (String × JValue) → List Char → Option (JValue × List Char)
  | 0, _, _ => none
  | fuel + 1, acc, cs =>
    match cs.dropWhile jsonWs with
    | '\x7d' :: rest => some (.obj acc, rest)
    | ',' :: rest =>
      match rest.dropWhile jsonWs with
      | '"' :: rest' =>
        match parseJMember fuel rest' with
        | none => none
        | some (k, v, rest'') => parseJObjTail fuel (objInsert acc k v) rest''
      | _ => none
    | _ => none

/-- One `"key": value` member, after its opening quote. -/
def parseJMember : Nat → List Char → Option (String × JValue × List Char)
  | 0, _ => none
  | fuel + 1, cs =>
    match parseJStr cs with
    | none => none
    | some (keyChars, rest) =>
      match rest.dropWhile jsonWs with
      | ':' :: rest' =>
        match parseJVal fuel rest' with
        | none => none
        | some (v, rest'') => some (keyChars.asString, v, rest'')
      | _ => none

end

/-- Model of `JSON.parse(s)`: `none` models a thrown `SyntaxError`. -/
def jsonParse (s : String) : Option JValue :=
  match parseJVal (2 * s.data.length + 2) s.data with
  | some (v, rest) => if (rest.dropWhile jsonWs).isEmpty then some v else none
  | none => none

example : jsonParse "[1, 2]" = some (.arr [.num false, .num false]) := by rfl
example : jsonParse " \x7b\"a\": [true, null], \"a\": 0\x7d " =
    some (.obj [("a", .num true)]) := by rfl
example : jsonParse "\"h\\ni\"" = some (.str "h\ni") := by rfl
example : jsonParse "" = none := by rfl
example : jsonParse "not json" = none := by rfl
example : jsonParse "-0.000e7" = some (.num true) := by rfl

/-- Input normalization of `analyzeCodebase` (lines 9–24): a string is
JSON-parsed (an array is used as-is, any other parse result is wrapped,
a parse failure becomes one file with path `"file"`); an array is used
as-is; `null` and objects are wrapped (`typeof null === 'object'`);
numbers, booleans and `undefined` match no branch, leaving no files. -/
def normalizeInput : JValue → List JValue
  | .str s =>
    (match jsonParse s with
     | some (.arr xs) => xs
     | some v => [v]
     | none => [.obj [("path", .str "file"), ("content", .str s)]])
  | .arr xs => xs
  | .null => [.null]
  | .obj fields => [.obj fields]
  | _ => []

/-- Lines 43–44 of the source plus the string-method coercions inside
`analyzeFile`: resolve `file.path || file.name || 'unknown'` and
`file.content || file.code || ''`, then demand strings — the content is
used first (`content.split`), then the path (`filePath.match`). -/
def extractRecord (file : JValue) : Except String (String × String) :=
  match getProp file "path" with
  | .error e => .error e
  | .ok p1 =>
    match (if truthy p1 then .ok p1 else getProp file "name") with
    | .error e => .error e
    | .ok p2 =>
      let pathVal := if truthy p2 then p2 else .str "unknown"
      match getProp file "content" with
      | .error e => .error e
      | .ok c1 =>
        match (if truthy c1 then .ok c1 else getProp file "code") with
        | .error e => .error e
        | .ok c2 =>
          let contentVal := if truthy c2 then c2 else .str ""
          match asStringVal contentVal with
          | .error e => .error e
          | .ok content =>
            match asStringVal pathVal with
            | .error e => .error e
            | .ok path => .ok (path, content)

/-- Mutable `analysis` state of the per-file loop (lines 26–64): the pushed
`files` plus the running statistics.  `fileTypes` and `languages` are the
source's insertion-ordered objects as association lists (JS additionally
fronts integer-like keys; no claim depends on that order). -/
structure AccState where
  files : List FileAnalysis
  totalLines : Nat
  totalSize : Nat
  fileTypes : List (String × Nat)
  languages : List (String × Nat)
deriving Repr, DecidableEq, Inhabited

/-- Counter update `m[k] = (m[k] || 0) + 1` on an insertion-ordered object: bump an
existing key in place, append a new key at the end. -/
def bump : List (String × Nat) → String → List (String × Nat)
  | [], k => [(k, 1)]
  | (k', n) :: rest, k =>
    if k' == k then (k', n + 1) :: rest else (k', n) :: bump rest k

/-- One iteration of the `for (const file of files)` loop (lines 42–64). -/
def step (st : AccState) (file : JValue) : Except String AccState :=
  match extractRecord file with
  | .error e => .error e
  | .ok (filePath, fileContent) =>
    let fa := analyzeFile filePath fileContent
    let fileTypes :=
      match getFileExtension filePath with
      | some ext => bump st.fileTypes ext
      | none => st.fileTypes
    let language := detectLanguage filePath fileContent
    let languages :=
      if truthyLang language then bump st.languages (langKey language)
      else st.languages
    .ok
      { files := st.files ++ [fa]
        totalLines := st.totalLines + fa.lines
        totalSize := st.totalSize + fa.size
        fileTypes := fileTypes
        languages := languages }

/-- The whole per-file loop. -/
def processFiles : AccState → List JValue → Except String AccState
  | st, [] => .ok st
  | st, f :: fs =>
    match step st f with
    | .error e => .error e
    | .ok st' => processFiles st' fs

/-- The `summary` block of the report. -/
structure Summary where
  totalFiles : Nat
  analyzedAt : String
deriving Repr, DecidableEq, Inhabited

/-- The `statistics` block of the report. -/
structure Statistics where
  totalLines : Nat
  totalSize : Nat
  fileTypes : List (String × Nat)
  languages : List (String × Nat)
deriving Repr, DecidableEq, Inhabited

/-- One advisory message of `generateInsights`. -/
structure Insight where
  type : String
  message : String
deriving Repr, DecidableEq, Inhabited

/-- The report returned by `analyzeCodebase`. -/
structure AnalysisReport where
  summary : Summary
  files : List FileAnalysis
  statistics : Statistics
  insights : List Insight
deriving Repr, DecidableEq, Inhabited

/-- Stable insertion step for `entries.sort((a, b) => b[1] - a[1])`:
an element moves ahead only of strictly smaller counts, so equal counts
keep insertion order, as JS `Array.prototype.sort` (stable) does. -/
def insDesc : List (String × Nat) → (String × Nat) → List (String × Nat)
  | [], x => [x]
  | y :: ys, x => if y.2 < x.2 then x :: y :: ys else y :: insDesc ys x

/-- Sorting `Object.entries(m).sort((a, b) => b[1] - a[1])`: stable descending
sort by count. -/
def sortByCountDesc (m : List (String × Nat)) : List (String × Nat) :=
  m.foldl insDesc []

/-- Insight synthesis `generateInsights(analysis)` (lines 174–231).  The average-size test
`totalSize / totalFiles > 10000` is JS float division; it is modelled as
the exact comparison `10000 * totalFiles < totalSize`, which agrees with
the float test for every realizable size. -/
def generateInsights (analysis : AnalysisReport) : List Insight :=
  if analysis.summary.totalFiles = 0 then
    [{ type := "warning", message := "No files found in codebase" }]
  else
    (if analysis.summary.totalFiles > 100 then
      [{ type := "info"
         message := "Large codebase detected with " ++
           toString analysis.summary.totalFiles ++ " files" }]
    else []) ++
    (let languageCount := analysis.statistics.languages.length
     if languageCount > 3 then
      [{ type := "info"
         message := "Multi-language project detected with " ++
           toString languageCount ++ " different languages" }]
     else []) ++
    (match (sortByCountDesc analysis.statistics.fileTypes).head? with
     | some mostCommonType =>
      [{ type := "info"
         message := "Most common file type: ." ++ mostCommonType.1 ++ " (" ++
           toString mostCommonType.2 ++ " files)" }]
     | none => []) ++
    (if 10000 * analysis.summary.totalFiles < analysis.statistics.totalSize then
      [{ type := "warning"
         message :=
           "Some files are quite large. Consider splitting them for better maintainability." }]
    else []) ++
    (let complexFiles := analysis.files.filter (fun f => f.metrics.functionCount > 10)
     if complexFiles.length > 0 then
      [{ type := "warning"
         message := toString complexFiles.length ++
           " file(s) have more than 10 functions. Consider refactoring." }]
     else [])

/-- Entry point `analyzeCodebase(codebase)` (lines 6–73).  The wall-clock timestamp
`new Date().toISOString()` is passed in as `ts`; a thrown error is the
`.error` case, re-wrapped as in the source's catch block (line 71). -/
def analyzeCodebase (codebase : JValue) (ts : String) : Except String AnalysisReport :=
  let files := normalizeInput codebase
  match processFiles ⟨[], 0, 0, [], []⟩ files with
  | .error e => .error ("Codebase analysis failed: " ++ e)
  | .ok st =>
    let analysis : AnalysisReport :=
      { summary := { totalFiles := files.length, analyzedAt := ts }
        files := st.files
        statistics :=
          { totalLines := st.totalLines
            totalSize := st.totalSize
            fileTypes := st.fileTypes
            languages := st.languages }
        insights := [] }
    .ok { analysis with insights := generateInsights analysis }

example :
    (analyzeCodebase (.str "not json at all") "t").map
      (fun r => (r.summary.totalFiles, (r.files.map FileAnalysis.path))) =
    .ok (1, ["file"]) := by rfl

example :
    (analyzeCodebase
      (.arr [.obj [("path", .str "app.js"),
                   ("content", .str "console.log(\"Hello\");")]]) "t").map
      (fun r =>
        (r.summary.totalFiles, r.files.map FileAnalysis.language,
         r.files.map FileAnalysis.lines, r.statistics.fileTypes,
         r.statistics.languages, r.insights.filter (fun i => i.type == "warning"))) =
    .ok (1, [.str "JavaScript"], [1], [("js", 1)], [("JavaScript", 1)], []) := by rfl

example :
    analyzeCodebase (.arr [.null]) "t" =
    .error "Codebase analysis failed: Cannot read properties of null (reading path)" := by
  rfl

example :
    (analyzeCodebase (.num false) "t").map
      (fun r => (r.summary.totalFiles, r.insights)) =
    .ok (0, [{ type := "warning", message := "No files found in codebase" }]) := by
  rfl

example :
    (analyzeCodebase (.str "[]") "t").map (fun r => r.summary.totalFiles) =
    .ok 0 := by rfl

/-- Two-record submission used as the C4 witness input. -/
def c4exInput : JValue :=
  JValue.arr
    [JValue.obj [("path", JValue.str "a.js"), ("content", JValue.str "x\ny")],
     JValue.obj [("path", JValue.str "b.py"), ("content", JValue.str "pass")]]

/-- The report the analyzer returns on `c4exInput`. -/
def c4exReport : AnalysisReport :=
  (analyzeCodebase c4exInput "t").toOption.getD default

/-- A `{path, content}` record as a JS object. -/
def mkRecord (pc : String × String) : JValue :=
  JValue.obj [("path", JValue.str pc.1), ("content", JValue.str pc.2)]

/-- Path a record is analyzed under: `file.path || file.name || 'unknown'`
with a string `path` field present — the empty string is falsy. -/
def effPath (p : String) : String :=
  if p == "" then "unknown" else p

/-- Empty-array submission used as the C10 witness input. -/
def c10exReport : AnalysisReport :=
  (analyzeCodebase (JValue.arr []) "t").toOption.getD default

/-- Key-set update of `bump`: an existing key leaves the key list unchanged,
a new key is appended. -/
def insKey (ks : List String) (k : String) : List String :=
  if k ∈ ks then ks else ks ++ [k]

/-- Concrete list of 101 distinct trivial paths cycling through the 5 table suffixes
js, py, rb, go, rs (5 distinct language labels). -/
def c8paths : List String :=
  (List.range 101).map (fun i =>
    "f" ++ toString i ++ "." ++
      (match i % 5 with
       | 0 => "js"
       | 1 => "py"
       | 2 => "rb"
       | 3 => "go"
       | _ => "rs"))

/-- Concrete list of 101 distinct trivial paths cycling through 5 suffixes that are not in
the language table (every file classifies as `"Unknown"`). -/
def c8badPaths : List String :=
  (List.range 101).map (fun i =>
    "f" ++ toString i ++ "." ++
      (match i % 5 with
       | 0 => "q0"
       | 1 => "q1"
       | 2 => "q2"
       | 3 => "q3"
       | _ => "q4"))

/-- Number of lines whose trimmed form begins with `*` (block-comment
continuation): `analyzeFile` counts each such line both as a code line and
as a comment line. -/
def starLineCount (content : String) : Nat :=
  ((jsLines content).filter (fun l => ['*'].isPrefixOf (jsTrim l))).length

theorem perLineContribution (l : List Char) :
    ((if isCodeLine l then 1 else 0) + (if isCommentLine l then 1 else 0) +
      (if isBlankLine l then 1 else 0) : Nat) =
    1 + (if ['*'].isPrefixOf (jsTrim l) then 1 else 0) := by
  unfold isCodeLine isCommentLine isBlankLine
  rcases ht : jsTrim l with _ | ⟨c, rest⟩
  · simp [List.isPrefixOf]
  · rcases rest with _ | ⟨d, rest2⟩
    · by_cases hc : c = '*' <;>
        by_cases hcs : c = '/' <;>
        simp_all [List.isPrefixOf]
    · by_cases hc : c = '*' <;>
        by_cases hcs : c = '/' <;>
        by_cases hd : d = '*' <;>
        by_cases hds : d = '/' <;>
        simp_all [List.isPrefixOf] <;>
        split_ifs <;> simp_all [eq_comm]

theorem length_filter_cons (p : List Char → Bool) (a : List Char)
    (l : List (List Char)) :
    ((a :: l).filter p).length = (if p a then 1 else 0) + (l.filter p).length := by
  by_cases h : p a <;> simp [List.filter_cons, h, Nat.add_comm]

theorem categoryCountSum (ls : List (List Char)) :
    (ls.filter isCodeLine).length + (ls.filter isCommentLine).length +
      (ls.filter isBlankLine).length =
    ls.length + (ls.filter (fun l => ['*'].isPrefixOf (jsTrim l))).length := by
  induction ls with
  | nil => rfl
  | cons a ls ih =>
    rw [length_filter_cons, length_filter_cons, length_filter_cons,
      length_filter_cons]
    have h := perLineContribution a
    simp only [List.length_cons]
    omega

/-- C1: the claimed invariant `codeLines + commentLines + blankLines ≤ lines`
fails: a line whose trimmed form starts with `*` passes both the code-line
filter (it does not start with `//` or `/*`) and the comment-line filter,
so it is counted twice. -/
theorem c1_counterexample :
    ¬ ((analyzeFile "f" "* x").codeLines + (analyzeFile "f" "* x").commentLines +
        (analyzeFile "f" "* x").blankLines ≤ (analyzeFile "f" "* x").lines) := by
  decide

/-- C1 (amended): for every content, `codeLines + commentLines + blankLines`
equals `lines` plus the number of lines whose trimmed form begins with `*`
(such lines are counted both as code and as comment; every other line falls
in exactly one category).  In particular the claimed `≤ lines` holds exactly
when no line trim-begins with `*`. -/
theorem c1_line_category_sum (path content : String) :
    (analyzeFile path content).codeLines + (analyzeFile path content).commentLines +
      (analyzeFile path content).blankLines =
    (analyzeFile path content).lines + starLineCount content := by
  show ((jsLines content).filter isCodeLine).length +
      ((jsLines content).filter isCommentLine).length +
      ((jsLines content).filter isBlankLine).length =
    (jsLines content).length + starLineCount content
  exact categoryCountSum (jsLines content)

theorem scanCount_pos_iff (re : RE) :
    ∀ (cs : List Char) (fuel : Nat), cs.length < fuel →
      (0 < scanCount re fuel cs ↔ (searchRem re cs).isSome = true) := by
  intro cs
  induction cs with
  | nil =>
    intro fuel h
    match fuel, h with
    | f + 1, _ =>
      cases hh : (remainders re []).head? with
      | some rem => simp [scanCount, searchRem, hh]
      | none => simp [scanCount, searchRem, hh]
  | cons c cs' ih =>
    intro fuel h
    match fuel, h with
    | f + 1, h =>
      cases hh : (remainders re (c :: cs')).head? with
      | some rem =>
        simp only [scanCount, searchRem, hh, Option.isSome_some, iff_true]
        split <;> omega
      | none =>
        have h' : cs'.length < f := by simpa [Nat.succ_lt_succ_iff] using h
        simpa [scanCount, searchRem, hh] using ih f h'

theorem reTest_iff_countMatches (re : RE) (s : String) :
    reTest re s = true ↔ 0 < countMatches re s := by
  unfold reTest countMatches
  exact (scanCount_pos_iff re s.data (s.data.length + 1) (Nat.lt_succ_self _)).symm

/-- C9: each structural signal's presence flag agrees with its count —
`hasFunctions`, `hasClasses` and `hasImports` hold exactly when the
corresponding count is positive, because `.test` and `.match` use the same
pattern over the whole content. -/
theorem c9_flags_agree_with_counts (path content : String) :
    ((analyzeFile path content).metrics.hasFunctions = true ↔
      0 < (analyzeFile path content).metrics.functionCount) ∧
    ((analyzeFile path content).metrics.hasClasses = true ↔
      0 < (analyzeFile path content).metrics.classCount) ∧
    ((analyzeFile path content).metrics.hasImports = true ↔
      0 < (analyzeFile path content).metrics.importCount) := by
  refine ⟨?_, ?_, ?_⟩ <;>
    simp only [analyzeFile] <;>
    exact reTest_iff_countMatches _ content

/-- Witness for C9 at concrete content: the function flag and a positive
function count both hold for a content with one arrow function. -/
theorem c9_witness :
    (analyzeFile "a.js" "const f = (x) => x").metrics.hasFunctions = true ∧
    0 < (analyzeFile "a.js" "const f = (x) => x").metrics.functionCount := by
  have h := c9_flags_agree_with_counts "a.js" "const f = (x) => x"
  exact ⟨by decide, h.1.mp (by decide)⟩

/-- C6: the claimed table/heuristics/Unknown trichotomy is false of the
classifier: `languageMap[extension]` is an object-literal property read, so
the extension `constructor` hits the inherited
`Object.prototype.constructor` — a truthy non-string object that
`detectLanguage` returns as the "language"; the result is not the
content-heuristic outcome, not `"Unknown"`, and not any string at all. -/
theorem c6_counterexample :
    detectLanguage "x.constructor" "" = LangResult.protoMember "constructor" ∧
    ∀ s, detectLanguage "x.constructor" "" ≠ LangResult.str s := by
  have h : detectLanguage "x.constructor" "" = LangResult.protoMember "constructor" := by
    decide
  exact ⟨h, fun s hs => LangResult.noConfusion (h ▸ hs)⟩

/-- C6 (amended): for every ASCII path (on which JS Unicode `toLowerCase`
agrees with the embedding's ASCII lowercasing) and every content: a
lowercased suffix that is an own table key yields that table language; a
suffix naming an inherited `Object.prototype` member yields that inherited
truthy non-string object instead; otherwise the content heuristics apply in
fixed priority — JavaScript, then Python, then `"Unknown"`.  The classifier
is total (never fails). -/
theorem c6_classifier_priority (path content : String)
    (hascii : ∀ c ∈ path.data, c.toNat < 128) :
    (∀ ext lang, getFileExtension path = some ext →
      languageMap.lookup ext = some lang →
      detectLanguage path content = .str lang) ∧
    (∀ ext, getFileExtension path = some ext →
      languageMap.lookup ext = none → ext ∈ objectProtoMembers →
      detectLanguage path content = .protoMember ext) ∧
    ((getFileExtension path).bind langMapRead = none →
      (reTest jsHeurRE content = true →
        detectLanguage path content = .str "JavaScript") ∧
      (reTest jsHeurRE content = false → reTest pyHeurRE content = true →
        detectLanguage path content = .str "Python") ∧
      (reTest jsHeurRE content = false → reTest pyHeurRE content = false →
        detectLanguage path content = .str "Unknown")) := by
  refine ⟨?_, ?_, ?_⟩
  · intro ext lang h1 h2
    simp [detectLanguage, langMapRead, h1, h2]
  · intro ext h1 h2 h3
    simp [detectLanguage, langMapRead, h1, h2, h3]
  · intro h
    unfold detectLanguage
    rw [h]
    unfold contentFallback
    refine ⟨?_, ?_, ?_⟩
    · intro h1
      simp [h1]
    · intro h1 h2
      simp [h1, h2]
    · intro h1 h2
      simp [h1, h2]

/-- Witness for C6 (amended): all four branches — table, inherited member,
both heuristics, and the Unknown default — at concrete ASCII inputs. -/
theorem c6_witness :
    detectLanguage "m.PY" "" = .str "Python" ∧
    detectLanguage "x.constructor" "let a = 1" = .protoMember "constructor" ∧
    detectLanguage "m.zzz" "let a = 1" = .str "JavaScript" ∧
    detectLanguage "m" "import os" = .str "Python" ∧
    detectLanguage "n" "hello" = .str "Unknown" := by
  refine ⟨(c6_classifier_priority "m.PY" "" (by decide)).1 "py" "Python"
      (by rfl) (by rfl),
    (c6_classifier_priority "x.constructor" "let a = 1" (by decide)).2.1
      "constructor" (by rfl) (by rfl) (by decide),
    ((c6_classifier_priority "m.zzz" "let a = 1" (by decide)).2.2
      (by rfl)).1 (by decide),
    ((c6_classifier_priority "m" "import os" (by decide)).2.2
      (by rfl)).2.1 (by decide) (by decide),
    ((c6_classifier_priority "n" "hello" (by decide)).2.2
      (by rfl)).2.2 (by decide) (by decide)⟩

theorem generateInsights_ignores_timestamp (n : Nat) (t1 t2 : String)
    (fs : List FileAnalysis) (stats : Statistics) (ins : List Insight) :
    generateInsights ⟨⟨n, t1⟩, fs, stats, ins⟩ =
    generateInsights ⟨⟨n, t2⟩, fs, stats, ins⟩ := rfl

/-- C7: `analyzeCodebase` is deterministic — two runs on the same input
produce identical `files`, `statistics` and `insights` (and the same error,
if any); only the `analyzedAt` timestamp in `summary` can differ. -/
theorem c7_deterministic_up_to_timestamp (v : JValue) (t1 t2 : String) :
    (analyzeCodebase v t1).map (fun r => (r.files, r.statistics, r.insights)) =
    (analyzeCodebase v t2).map (fun r => (r.files, r.statistics, r.insights)) := by
  unfold analyzeCodebase
  cases h : processFiles ⟨[], 0, 0, [], []⟩ (normalizeInput v) with
  | error e => simp [h]
  | ok st =>
    simp only [h, Except.map]
    rfl

/-- C5: a submission that normalizes to zero file records yields the report
with `totalFiles = 0`, empty statistics, and exactly the single
"No files found in codebase" warning (rule 1 returns before any other
insight rule is evaluated). -/
theorem c5_empty_submission (v : JValue) (ts : String)
    (h : normalizeInput v = []) :
    analyzeCodebase v ts =
      .ok
        { summary := { totalFiles := 0, analyzedAt := ts }
          files := []
          statistics :=
            { totalLines := 0, totalSize := 0, fileTypes := [], languages := [] }
          insights := [{ type := "warning", message := "No files found in codebase" }] } := by
  unfold analyzeCodebase
  rw [h]
  rfl

/-- Witness for C5: the empty array submission. -/
theorem c5_witness :
    analyzeCodebase (JValue.arr []) "2024-01-01T00:00:00.000Z" =
      .ok
        { summary := { totalFiles := 0, analyzedAt := "2024-01-01T00:00:00.000Z" }
          files := []
          statistics :=
            { totalLines := 0, totalSize := 0, fileTypes := [], languages := [] }
          insights := [{ type := "warning", message := "No files found in codebase" }] } :=
  c5_empty_submission (JValue.arr []) "2024-01-01T00:00:00.000Z" rfl

theorem processFiles_totals :
    ∀ (fs : List JValue) (st st' : AccState),
      processFiles st fs = .ok st' →
      ∃ ds, st'.files = st.files ++ ds ∧
        st'.totalLines = st.totalLines + (ds.map FileAnalysis.lines).sum ∧
        st'.totalSize = st.totalSize + (ds.map FileAnalysis.size).sum := by
  intro fs
  induction fs with
  | nil =>
    intro st st' h
    simp only [processFiles] at h
    injection h with h
    subst h
    exact ⟨[], by simp, by simp, by simp⟩
  | cons f fs ih =>
    intro st st' h
    simp only [processFiles] at h
    cases he : extractRecord f with
    | error e => rw [step, he] at h; cases h
    | ok pc =>
      obtain ⟨p, c⟩ := pc
      rw [step, he] at h
      obtain ⟨ds, hf, hl, hs⟩ := ih _ _ h
      refine ⟨analyzeFile p c :: ds, ?_, ?_, ?_⟩
      · simpa [List.append_assoc] using hf
      · simp only [List.map_cons, List.sum_cons]
        simp at hl
        omega
      · simp only [List.map_cons, List.sum_cons]
        simp at hs
        omega

/-- C4: in every successful report, `totalLines` is the sum of the `lines`
of the analyzed files and `totalSize` is the sum of their `size`s. -/
theorem c4_statistics_are_sums (v : JValue) (ts : String) (r : AnalysisReport)
    (h : analyzeCodebase v ts = .ok r) :
    r.statistics.totalLines = (r.files.map FileAnalysis.lines).sum ∧
    r.statistics.totalSize = (r.files.map FileAnalysis.size).sum := by
  cases hp : processFiles ⟨[], 0, 0, [], []⟩ (normalizeInput v) with
  | error e => simp [analyzeCodebase, hp] at h
  | ok st =>
    simp only [analyzeCodebase, hp, Except.ok.injEq] at h
    subst h
    obtain ⟨ds, hf, hl, hs⟩ := processFiles_totals _ _ _ hp
    simp only [List.nil_append] at hf
    constructor
    · show st.totalLines = (st.files.map FileAnalysis.lines).sum
      rw [hf]
      simpa using hl
    · show st.totalSize = (st.files.map FileAnalysis.size).sum
      rw [hf]
      simpa using hs

/-- Witness for C4 at a two-file submission. -/
theorem c4_witness :
    c4exReport.statistics.totalLines = (c4exReport.files.map FileAnalysis.lines).sum ∧
    c4exReport.statistics.totalSize = (c4exReport.files.map FileAnalysis.size).sum :=
  c4_statistics_are_sums c4exInput "t" c4exReport (by rfl)

/-- C2: the claimed leniency contract fails: a sequence submission whose
element is `null` makes the analyzer throw (property access on `null`),
so not every element shape is absorbed. -/
theorem c2_counterexample :
    analyzeCodebase (JValue.arr [JValue.null]) "t" =
      .error "Codebase analysis failed: Cannot read properties of null (reading path)" := by
  rfl

theorem processFiles_ok :
    ∀ (fs : List JValue) (st : AccState),
      (∀ f ∈ fs, (extractRecord f).isOk = true) →
      ∃ st', processFiles st fs = .ok st' := by
  intro fs
  induction fs with
  | nil => exact fun st _ => ⟨st, rfl⟩
  | cons f fs ih =>
    intro st h
    have hf := h f (by simp)
    cases he : extractRecord f with
    | error e => rw [he] at hf; cases hf
    | ok pc =>
      obtain ⟨p, c⟩ := pc
      obtain ⟨st', hps⟩ := ih
        { files := st.files ++ [analyzeFile p c]
          totalLines := st.totalLines + (analyzeFile p c).lines
          totalSize := st.totalSize + (analyzeFile p c).size
          fileTypes :=
            match getFileExtension p with
            | some ext => bump st.fileTypes ext
            | none => st.fileTypes
          languages :=
            if truthyLang (detectLanguage p c) then
              bump st.languages (langKey (detectLanguage p c))
            else st.languages }
        (fun g hg => h g (by simp [hg]))
      refine ⟨st', ?_⟩
      simp only [processFiles, step, he]
      exact hps

/-- C2 (amended): `analyze` returns a report for every submission whose
normalized file records survive the source's field reads — i.e. no record
is `null`/`undefined` and each record's resolved path and content are
strings.  Records violating this (e.g. a `null` sequence element, or a
numeric `path`) make the operation fail; all other shape irregularities
are absorbed. -/
theorem c2_analyze_succeeds (v : JValue) (ts : String)
    (h : ∀ f ∈ normalizeInput v, (extractRecord f).isOk = true) :
    (analyzeCodebase v ts).isOk = true := by
  obtain ⟨st', hp⟩ := processFiles_ok (normalizeInput v) ⟨[], 0, 0, [], []⟩ h
  simp only [analyzeCodebase, hp]
  rfl

/-- Witness for C2: a mixed-shape sequence (a proper record, a bare string
element, a number) is fully absorbed. -/
theorem c2_witness :
    (analyzeCodebase
      (JValue.arr
        [JValue.obj [("path", JValue.str "a.js"), ("content", JValue.str "x")],
         JValue.str "odd", JValue.num true]) "t").isOk = true :=
  c2_analyze_succeeds _ "t" (by decide)

theorem extractRecord_mkRecord (p c : String) :
    extractRecord (mkRecord (p, c)) = .ok (effPath p, c) := by
  unfold extractRecord mkRecord effPath
  cases hp : p == "" <;> cases hc : c == ""
  · simp [getProp, truthy, asStringVal, List.lookup, hp, hc]
  · have hce := eq_of_beq hc
    subst hce
    simp [getProp, truthy, asStringVal, List.lookup, hp, hc]
  · have hpe := eq_of_beq hp
    subst hpe
    simp [getProp, truthy, asStringVal, List.lookup, hp, hc]
  · have hpe := eq_of_beq hp
    have hce := eq_of_beq hc
    subst hpe
    subst hce
    simp [getProp, truthy, asStringVal, List.lookup, hp, hc]

theorem processFiles_mkRecords :
    ∀ (rs : List (String × String)) (st : AccState),
      processFiles st (rs.map mkRecord) =
        .ok
          { files := st.files ++ rs.map (fun pc => analyzeFile (effPath pc.1) pc.2)
            totalLines := st.totalLines +
              (rs.map (fun pc => (analyzeFile (effPath pc.1) pc.2).lines)).sum
            totalSize := st.totalSize +
              (rs.map (fun pc => (analyzeFile (effPath pc.1) pc.2).size)).sum
            fileTypes := rs.foldl
              (fun m pc =>
                match getFileExtension (effPath pc.1) with
                | some ext => bump m ext
                | none => m) st.fileTypes
            languages := rs.foldl
              (fun m pc =>
                if truthyLang (detectLanguage (effPath pc.1) pc.2) then
                  bump m (langKey (detectLanguage (effPath pc.1) pc.2))
                else m) st.languages } := by
  intro rs
  induction rs with
  | nil => intro st; simp [processFiles]
  | cons pc rs ih =>
    intro st
    obtain ⟨p, c⟩ := pc
    simp only [List.map_cons, processFiles, step, extractRecord_mkRecord]
    rw [ih]
    simp [List.append_assoc, Nat.add_assoc]

/-- C3: on a submission that is a sequence of `{path, content}` records,
the report's `files` sequence is exactly the element-wise analysis of the
input records — same length, same order. -/
theorem c3_files_preserve_input_order (rs : List (String × String)) (ts : String) :
    (analyzeCodebase (JValue.arr (rs.map mkRecord)) ts).map (fun r => r.files) =
      .ok (rs.map (fun pc => analyzeFile (effPath pc.1) pc.2)) := by
  simp only [analyzeCodebase, normalizeInput, processFiles_mkRecords]
  simp [Except.map]

theorem generateInsights_length (a : AnalysisReport) :
    (generateInsights a).length ≤ 5 ∧
    (a.summary.totalFiles = 0 → (generateInsights a).length = 1) := by
  unfold generateInsights
  by_cases h0 : a.summary.totalFiles = 0
  · simp [h0]
  · refine ⟨?_, fun h => absurd h h0⟩
    simp only [h0, if_false]
    rcases hmc : (sortByCountDesc a.statistics.fileTypes).head? with _ | mc <;>
      split_ifs <;> simp [hmc]

/-- C10: every report's `insights` sequence has at most 5 elements, and
exactly 1 (the "no files" warning) when `totalFiles = 0`: rule 1 short
circuits, and each of the five remaining rules contributes at most one
insight. -/
theorem c10_insights_bounded (v : JValue) (ts : String) (r : AnalysisReport)
    (h : analyzeCodebase v ts = .ok r) :
    r.insights.length ≤ 5 ∧ (r.summary.totalFiles = 0 → r.insights.length = 1) := by
  cases hp : processFiles ⟨[], 0, 0, [], []⟩ (normalizeInput v) with
  | error e => simp [analyzeCodebase, hp] at h
  | ok st =>
    simp only [analyzeCodebase, hp, Except.ok.injEq] at h
    subst h
    exact generateInsights_length _

/-- Witness for C10 at the empty submission (`totalFiles = 0`). -/
theorem c10_witness :
    c10exReport.insights.length ≤ 5 ∧
    (c10exReport.summary.totalFiles = 0 → c10exReport.insights.length = 1) :=
  c10_insights_bounded (JValue.arr []) "t" c10exReport (by rfl)

theorem lookup_vals :
    ∀ (m : List (String × String)) (e l : String),
      List.lookup e m = some l → l ∈ m.map Prod.snd := by
  intro m
  induction m with
  | nil => intro e l h; simp [List.lookup] at h
  | cons kv m ih =>
    intro e l h
    obtain ⟨k, v⟩ := kv
    rw [List.lookup] at h
    cases he : e == k with
    | true => rw [he] at h; injection h with h; simp [h]
    | false =>
      rw [he] at h
      exact List.mem_cons_of_mem _ (ih e l h)

theorem detectLanguage_truthy (p c : String) :
    truthyLang (detectLanguage p c) = true := by
  unfold detectLanguage
  cases h : (getFileExtension p).bind (fun ext => langMapRead ext) with
  | none =>
    unfold contentFallback truthyLang
    split_ifs <;> decide
  | some v =>
    cases he : getFileExtension p with
    | none => rw [he] at h; simp at h
    | some ext =>
      rw [he] at h
      simp only [Option.some_bind] at h
      unfold langMapRead at h
      cases hl : languageMap.lookup ext with
      | some lang =>
        rw [hl] at h
        injection h with h
        subst h
        have hv := lookup_vals languageMap ext lang hl
        have hall : ∀ x ∈ languageMap.map Prod.snd, truthyLang (.str x) = true := by
          decide
        exact hall lang hv
      | none =>
        rw [hl] at h
        by_cases hm : ext ∈ objectProtoMembers
        · simp only [hm, if_true] at h
          injection h with h
          subst h
          rfl
        · simp [hm] at h

theorem bump_keys (m : List (String × Nat)) (k : String) :
    (bump m k).map Prod.fst = insKey (m.map Prod.fst) k := by
  induction m with
  | nil => simp [bump, insKey]
  | cons kv m ih =>
    obtain ⟨k', n⟩ := kv
    by_cases h : k' == k
    · have hk : k' = k := eq_of_beq h
      subst hk
      simp [bump, insKey]
    · have hne : k ≠ k' := fun hh => h (by rw [hh]; exact beq_self_eq_true k')
      have hb : bump ((k', n) :: m) k = (k', n) :: bump m k := by
        simp [bump, h]
      rw [hb, List.map_cons, List.map_cons, ih]
      unfold insKey
      by_cases hm : k ∈ m.map Prod.fst
      · simp [hm, List.mem_cons, hne]
      · simp [hm, List.mem_cons, hne]

theorem foldBump_keys :
    ∀ (xs : List String) (m : List (String × Nat)),
      (xs.foldl bump m).map Prod.fst = xs.foldl insKey (m.map Prod.fst) := by
  intro xs
  induction xs with
  | nil => intro m; rfl
  | cons x xs ih =>
    intro m
    simp only [List.foldl_cons, ih, bump_keys]

theorem foldInsKey_nodup :
    ∀ (xs ks : List String), ks.Nodup → (xs.foldl insKey ks).Nodup := by
  intro xs
  induction xs with
  | nil => intro ks h; exact h
  | cons x xs ih =>
    intro ks h
    rw [List.foldl_cons]
    refine ih _ ?_
    unfold insKey
    by_cases hx : x ∈ ks
    · simpa [hx] using h
    · simp only [hx, if_false]
      simpa [List.nodup_append, hx] using h

theorem foldInsKey_toFinset :
    ∀ (xs ks : List String),
      (xs.foldl insKey ks).toFinset = ks.toFinset ∪ xs.toFinset := by
  intro xs
  induction xs with
  | nil => intro ks; simp
  | cons x xs ih =>
    intro ks
    rw [List.foldl_cons, ih]
    ext a
    unfold insKey
    by_cases hx : x ∈ ks <;> simp [hx] <;> aesop

theorem foldBump_length_eq_dedup (xs : List String) :
    (xs.foldl bump []).length = xs.dedup.length := by
  have h1 : (xs.foldl bump []).length = ((xs.foldl bump []).map Prod.fst).length := by
    simp
  rw [h1, foldBump_keys]
  have hnd : (xs.foldl insKey ([] : List String)).Nodup :=
    foldInsKey_nodup xs [] (by simp)
  have hfs : (xs.foldl insKey ([] : List String)).toFinset = xs.toFinset := by
    simpa using foldInsKey_toFinset xs []
  calc (xs.foldl insKey ([] : List String)).length
      = (xs.foldl insKey ([] : List String)).toFinset.card :=
        (List.toFinset_card_of_nodup hnd).symm
    _ = xs.toFinset.card := by rw [hfs]
    _ = xs.dedup.length := List.card_toFinset xs

theorem languages_of_trivial :
    ∀ (ps : List String), (∀ p ∈ ps, p ≠ "") →
      ∀ (m : List (String × Nat)),
        (ps.map (fun p => (p, ""))).foldl
          (fun m pc =>
            if truthyLang (detectLanguage (effPath pc.1) pc.2) then
              bump m (langKey (detectLanguage (effPath pc.1) pc.2))
            else m) m =
        (ps.map (fun p => langKey (detectLanguage p ""))).foldl bump m := by
  intro ps
  induction ps with
  | nil => intro _ m; rfl
  | cons p ps ih =>
    intro hne m
    have hp : p ≠ "" := hne p (List.mem_cons_self p ps)
    have hpb : (p == "") = false := by
      cases hb : p == "" with
      | true => exact absurd (eq_of_beq hb) hp
      | false => rfl
    have heff : effPath p = p := by
      unfold effPath
      simp [hpb]
    simp only [List.map_cons, List.foldl_cons, heff]
    rw [if_pos (detectLanguage_truthy p "")]
    exact ih (fun q hq => hne q (List.mem_cons_of_mem _ hq)) _

/-- C8 (amended): for a submission of 101 distinct trivial files whose
ASCII paths carry 5 distinct suffixes, none naming an inherited
`Object.prototype` member, *provided those suffixes resolve to 5 distinct
language labels*, the insights open with the large-codebase message
followed by the multi-language message, in that order.  (The provisos are
forced: 5 distinct suffixes alone do not guarantee more than 3 language
labels — see the counterexample — and the ASCII / non-inherited-member
conditions keep the embedded classifier faithful to JS Unicode
`toLowerCase` and to the prototype-chain read.) -/
theorem c8_large_then_multilanguage (ps : List String) (ts : String)
    (hlen : ps.length = 101)
    (hnd : ps.Nodup)
    (hne : ∀ p ∈ ps, p ≠ "")
    (hascii : ∀ p ∈ ps, ∀ c ∈ p.data, c.toNat < 128)
    (hnp : ∀ p ∈ ps, ∀ ext, getFileExtension p = some ext →
      ext ∉ objectProtoMembers)
    (hsuf : (ps.filterMap getFileExtension).dedup.length = 5)
    (hlang : ((ps.map (fun p => langKey (detectLanguage p ""))).dedup).length = 5) :
    (analyzeCodebase (JValue.arr ((ps.map (fun p => (p, ""))).map mkRecord)) ts).map
        (fun r => r.insights.take 2) =
      .ok [{ type := "info", message := "Large codebase detected with 101 files" },
           { type := "info",
             message := "Multi-language project detected with 5 different languages" }] := by
  have hlang' :
      ((ps.map (fun p => (p, ""))).foldl
        (fun m pc =>
          if truthyLang (detectLanguage (effPath pc.1) pc.2) then
            bump m (langKey (detectLanguage (effPath pc.1) pc.2))
          else m) []).length = 5 := by
    rw [languages_of_trivial ps hne, foldBump_length_eq_dedup, hlang]
  have hfiles : ((ps.map (fun p => (p, ""))).map mkRecord).length = 101 := by
    simp [hlen]
  simp only [analyzeCodebase, normalizeInput, processFiles_mkRecords, Except.map,
    Except.ok.injEq]
  unfold generateInsights
  simp only [hfiles, hlang']
  norm_num
  exact ⟨by rfl, by rfl⟩

set_option maxRecDepth 100000 in
/-- C8: the claim fails as stated: 101 distinct trivial files with 5
distinct suffixes need not trigger the multi-language insight — with 5
unknown suffixes every file's language is `"Unknown"`, so only one language
label exists and the insights are exactly the large-codebase and
most-common-type messages (no multi-language message at all). -/
theorem c8_counterexample :
    c8badPaths.Nodup ∧ c8badPaths.length = 101 ∧
    (c8badPaths.filterMap getFileExtension).dedup.length = 5 ∧
    (analyzeCodebase
        (JValue.arr ((c8badPaths.map (fun p => (p, ""))).map mkRecord)) "t").map
        (fun r => r.insights.map Insight.message) =
      .ok ["Large codebase detected with 101 files",
           "Most common file type: .q0 (21 files)"] := by
  refine ⟨by decide, by rfl, by rfl, by rfl⟩

set_option maxRecDepth 100000 in
/-- Witness for C8 (amended) at 101 concrete files over js/py/rb/go/rs. -/
theorem c8_witness :
    (analyzeCodebase
        (JValue.arr ((c8paths.map (fun p => (p, ""))).map mkRecord)) "t").map
        (fun r => r.insights.take 2) =
      .ok [{ type := "info", message := "Large codebase detected with 101 files" },
           { type := "info",
             message := "Multi-language project detected with 5 different languages" }] :=
  c8_large_then_multilanguage c8paths "t" (by rfl) (by decide) (by decide)
    (by decide) (by decide) (by rfl) (by rfl)
